import Mathlib

/-!
Verification of the conversation-state and request-orchestration core of
`bot.py` (a Telegram bot that rewrites legal text in plain language via a
GPT completion API).

The embedding is shallow and faithful to the source:

* The Python dict `UserContext.storage : dict[Username, list[str]]` is
  modelled as an association list `Storage`; `slookup` models `d[k]` /
  `k in d` and `supdate` models `d[k] = v` (inserting when absent).
* Dictionary access on a missing key raises `KeyError` in Python; every
  operation that can raise returns `Option` (`none` = raised exception).
* The OpenAI call `client.chat.completions.create(...)` is an external
  collaborator; it is modelled by an oracle
  `complete : String → String → Option String` taking the user content and
  the system prompt, where `none` models any exception raised by the call
  (network, auth, quota, malformed payload, absent content).
* `bot.reply_to` / `bot.send_message` are modelled by recording the
  outbound messages, in order, in the handler's result, together with the
  keyboard buttons attached to each (`ReplyKeyboardMarkup` with the two
  `KeyboardButton`s, or none).
* The handler's result also records the windowed `context` string computed
  at line 111 of the source and the list of `(content, prompt)` arguments
  of the completion calls issued, so that claims about "what was sent to
  the model" and "no completion call" are directly observable.
-/

/-- Usernames, as in `Username: TypeAlias = str`. -/
abbrev Username := String

/-- The shared map `UserContext.storage : dict[Username, list[str]]`,
as an association list (first binding for a key wins). -/
abbrev Storage := List (Username × List String)

namespace UserContext

/-- Dict lookup `storage[username]`: `some` of the value when the key is
present, `none` when Python would raise `KeyError`. -/
def slookup : Storage → Username → Option (List String)
  | [], _ => none
  | (k, v) :: rest, u => if k = u then some v else slookup rest u

/-- Dict assignment `storage[username] = h`: replaces the binding when the
key is present, appends a new binding otherwise. -/
def supdate : Storage → Username → List String → Storage
  | [], u, h => [(u, h)]
  | (k, v) :: rest, u, h =>
      if k = u then (u, h) :: rest else (k, v) :: supdate rest u h

/-- Models `UserContext._create_context`: `self.storage[username] = []`. -/
def create_context (s : Storage) (username : Username) : Storage :=
  supdate s username []

/-- Models `UserContext._get_context`:
`" ".join(self.storage[username][-3:])` with
`LAST_MESSAGES_TO_RETURN = -3`.  Python's `l[-3:]` is `l.drop (l.length - 3)`;
`none` models the `KeyError` raised when `username` has no entry. -/
def get_context (s : Storage) (username : Username) : Option String :=
  (slookup s username).map
    (fun h => String.intercalate " " (h.drop (h.length - 3)))

/-- Models `UserContext._add_context`:
`self.storage[username].append(message.text)`; `none` models the `KeyError`
raised when `username` has no entry. -/
def add_context (s : Storage) (username : Username) (text : String) :
    Option Storage :=
  (slookup s username).map (fun h => supdate s username (h ++ [text]))

/-- Models `UserContext._del_context`: `self.storage[username].clear()`; `none`
models the `KeyError` raised when `username` has no entry. -/
def del_context (s : Storage) (username : Username) : Option Storage :=
  (slookup s username).map (fun _ => supdate s username [])

end UserContext

/-- The constant `ERROR_RESPONSE` (line 56 of the source). -/
def ERROR_RESPONSE : String :=
  "На стороне сервиса произошла ошибка. Воспользуйтесь сервисом позже."

/-- Models `get_gpt_response(user_message, system_prompt)`: issues the completion
request and returns `text.strip()` of the returned content on success; any
exception is caught and mapped to `ERROR_RESPONSE` (lines 62–84). -/
def get_gpt_response (complete : String → String → Option String)
    (user_message system_prompt : String) : String :=
  match complete user_message system_prompt with
  | some text => text.trim
  | none => ERROR_RESPONSE

/-- The explain-terms system prompt (lines 119–123 of the source). -/
def explain_terms_prompt : String :=
  "Добавь список сложных терминов из твоего предыдущего" ++
  " ответа с их краткими определениями. Например: " ++
  "<i>Термин:</i> Конституция — основной закон государства."

/-- The rewrite system prompt (lines 125–132 of the source). -/
def rewrite_prompt : String :=
  "Ты - эксперт, который помогает переписывать тексты законов, делая их простыми, ясными и доступными для широкой " ++
  "аудитории, не обладающей юридическими знаниями. Сохраняй ключевые аспекты и суть закона, избегая сложных " ++
  "формулировок и юридического жаргона. Включай пояснения сложных моментов и примеры (в формате: <i>Пример:</i>). " ++
  "Также форматируй текст в формате: <b>Заголовок</b> " ++
  "Это пример текста, в котором <b>жирный текст</b>, <i>курсивный текст</i>, <s>зачёркнутый текст</s>, " ++
  "<u>подчёркнутый текст</u> и <code>код</code> вместо ``` и ** оформлены в соответствии с указанным форматом."

/-- The `system_prompt` choice of lines 118–132: the exact literal
"Объяснить термины" selects the explain-terms prompt, anything else the
rewrite prompt.  (This branch is only reached for messages that are not
the clear trigger.) -/
def select (user_message : String) : String :=
  if user_message = "Объяснить термины" then explain_terms_prompt
  else rewrite_prompt

/-- One outbound chat message: its text and the quick-reply keyboard
buttons attached to it (empty when no affordance is attached). -/
structure OutboundMessage where
  text : String
  buttons : List String
  deriving DecidableEq

/-- Result of one `handle_text` invocation: the storage afterwards, the
windowed `context` string computed at line 111, the `(content, prompt)`
arguments of each completion call issued, and the outbound messages sent,
in order. -/
structure HandleResult where
  storage : Storage
  context : String
  calls : List (String × String)
  replies : List OutboundMessage
  deriving DecidableEq

/-- Models `handle_text(message)` (lines 97–142): ensures a context exists for
the sender, appends the raw text, computes the windowed context, then
either clears (on the clear trigger, no completion call) or issues one
completion call and replies with the response, attaching the two
quick-reply buttons iff the response is not `ERROR_RESPONSE`.
`none` models an uncaught exception escaping the handler. -/
def handle_text (complete : String → String → Option String)
    (s : Storage) (username : Username) (user_message : String) :
    Option HandleResult := do
  let s1 := if (UserContext.slookup s username).isSome then s
            else UserContext.create_context s username
  let s2 ← UserContext.add_context s1 username user_message
  let context ← UserContext.get_context s2 username
  if user_message = "Очистить контекст" then
    let s3 ← UserContext.del_context s2 username
    pure ⟨s3, context, [], [⟨"Контекст сброшен.", []⟩]⟩
  else
    let system_prompt := select user_message
    let response := get_gpt_response complete context system_prompt
    let buttons := if response = ERROR_RESPONSE then ([] : List String)
                   else ["Очистить контекст", "Объяснить термины"]
    pure ⟨s2, context, [(context, system_prompt)],
          [⟨"Подождите...", []⟩, ⟨response, buttons⟩]⟩

/-- Iterated handling of a sequence of inbound `(username, text)`
messages, threading the shared storage. -/
def run (complete : String → String → Option String) :
    Storage → List (Username × String) → Option Storage
  | s, [] => some s
  | s, (u, m) :: rest => do
      let r ← handle_text complete s u m
      run complete r.storage rest

/-- The windowed history a message text produces: the appended history
for sender `u` after handling `msg` on storage `s`. -/
def appendedHistory (s : Storage) (u : Username) (msg : String) :
    List String :=
  (UserContext.slookup s u).getD [] ++ [msg]


/-- The windowing expression of `_get_context`, applied to a plain history
list: the space-join of `h[-3:]`. -/
def windowOf (h : List String) : String :=
  String.intercalate " " (h.drop (h.length - 3))

/-- The storage after lines 107–108 of `handle_text`
(`if username not in user_context.storage: _create_context`). -/
def ensureStore (s : Storage) (u : Username) : Storage :=
  if (UserContext.slookup s u).isSome then s else UserContext.create_context s u

/-- The texts of the inbound messages sent by user `u` within an event
sequence, in arrival order. -/
def msgsOf (u : Username) (events : List (Username × String)) : List String :=
  (events.filter (fun e => e.1 == u)).map Prod.snd

namespace UserContext

theorem slookup_supdate_self (s : Storage) (u : Username) (h : List String) :
    slookup (supdate s u h) u = some h := by
  induction s with
  | nil => simp [supdate, slookup]
  | cons p rest ih =>
      obtain ⟨k, v⟩ := p
      by_cases hk : k = u
      · simp [supdate, slookup, hk]
      · simp [supdate, slookup, hk, ih]

theorem slookup_supdate_ne (s : Storage) (u : Username) (h : List String)
    (v : Username) (hv : v ≠ u) :
    slookup (supdate s u h) v = slookup s v := by
  induction s with
  | nil => simp [supdate, slookup, Ne.symm hv]
  | cons p rest ih =>
      obtain ⟨k, w⟩ := p
      by_cases hk : k = u
      · subst hk
        simp [supdate, slookup, Ne.symm hv]
      · simp [supdate, slookup, hk, ih]

/-- After the `if username not in user_context.storage` step of
`handle_text`, the sender's entry holds its prior history, or `[]` if
there was none. -/
theorem slookup_ensure_self (s : Storage) (u : Username) :
    slookup (ensureStore s u) u = some ((slookup s u).getD []) := by
  cases h : slookup s u with
  | none => simp [ensureStore, h, create_context, slookup_supdate_self]
  | some l => simp [ensureStore, h]

theorem slookup_ensure_ne (s : Storage) (u v : Username) (hv : v ≠ u) :
    slookup (ensureStore s u) v = slookup s v := by
  cases h : slookup s u with
  | none => simp [ensureStore, h, create_context, slookup_supdate_ne _ _ _ _ hv]
  | some l => simp [ensureStore, h]

end UserContext

/-- Closed-form behaviour of `handle_text`: in both branches the handler
returns `some` result built from the post-append history and its window. -/
theorem handle_text_eq (complete : String → String → Option String)
    (s : Storage) (u : Username) (msg : String) :
    handle_text complete s u msg =
      if msg = "Очистить контекст" then
        some ⟨UserContext.supdate
                (UserContext.supdate (ensureStore s u) u (appendedHistory s u msg))
                u [],
              windowOf (appendedHistory s u msg), [],
              [⟨"Контекст сброшен.", []⟩]⟩
      else
        some ⟨UserContext.supdate (ensureStore s u) u (appendedHistory s u msg),
              windowOf (appendedHistory s u msg),
              [(windowOf (appendedHistory s u msg), select msg)],
              [⟨"Подождите...", []⟩,
               ⟨get_gpt_response complete
                  (windowOf (appendedHistory s u msg)) (select msg),
                if get_gpt_response complete
                     (windowOf (appendedHistory s u msg)) (select msg) =
                   ERROR_RESPONSE
                then []
                else ["Очистить контекст", "Объяснить термины"]⟩]⟩ := by
  have h1 := UserContext.slookup_ensure_self s u
  simp only [ensureStore] at h1
  by_cases hm : msg = "Очистить контекст"
  · simp only [handle_text, ensureStore, UserContext.add_context, h1,
      Option.map_some', Option.some_bind, UserContext.get_context,
      UserContext.slookup_supdate_self, UserContext.del_context,
      if_pos hm, appendedHistory, windowOf, pure,
      Option.bind_eq_bind]
  · simp only [handle_text, ensureStore, UserContext.add_context, h1,
      Option.map_some', Option.some_bind, UserContext.get_context,
      UserContext.slookup_supdate_self, if_neg hm,
      appendedHistory, windowOf, pure, Option.bind_eq_bind]

/-- The just-appended last entry always survives the `[-3:]` window. -/
theorem mem_drop_last3 (old : List String) (msg : String) :
    msg ∈ (old ++ [msg]).drop ((old ++ [msg]).length - 3) := by
  have hle : (old ++ [msg]).length - 3 ≤ old.length := by
    simp only [List.length_append, List.length_singleton]
    omega
  rw [List.drop_append_of_le_length hle]
  exact List.mem_append_right _ (List.mem_singleton.mpr rfl)

/-- Totality: `handle_text` never lets an exception escape: it always returns a
result. -/
theorem handle_text_isSome (complete : String → String → Option String)
    (s : Storage) (u : Username) (msg : String) :
    (handle_text complete s u msg).isSome := by
  rw [handle_text_eq]
  by_cases hm : msg = "Очистить контекст" <;> simp [hm]

/-- C1: every inbound non-`/start` message is appended verbatim to the
sender's history exactly once, before any trigger interpretation: the
windowed context the handler computes (line 111) is always the window of
the old history extended by exactly the new message — including when the
message is a trigger literal such as "Очистить контекст" — and for every
message other than the clear trigger the stored history afterwards is the
old history with exactly the message appended, so after "Объяснить
термины" the trigger string itself sits in the stored history and in the
window. -/
theorem handle_text_appends_raw_message
    (complete : String → String → Option String) (s : Storage)
    (u : Username) (msg : String) :
    ∃ r, handle_text complete s u msg = some r ∧
      r.context = windowOf (appendedHistory s u msg) ∧
      (msg ≠ "Очистить контекст" →
        UserContext.slookup r.storage u = some (appendedHistory s u msg)) ∧
      msg ∈ (appendedHistory s u msg).drop ((appendedHistory s u msg).length - 3) := by
  rw [handle_text_eq]
  by_cases hm : msg = "Очистить контекст"
  · refine ⟨_, by rw [if_pos hm], rfl, fun hc => absurd hm hc, ?_⟩
    exact mem_drop_last3 _ _
  · refine ⟨_, by rw [if_neg hm], rfl, fun _ => ?_, mem_drop_last3 _ _⟩
    exact UserContext.slookup_supdate_self _ _ _

/-- Closed instance of `handle_text_appends_raw_message`: handling
"Объяснить термины" from a user with prior history stores the trigger
string itself and keeps it inside the window. -/
theorem handle_text_appends_raw_message_app :
    ∃ r, handle_text (fun _ _ => none) [("alice", ["m1"])] "alice"
           "Объяснить термины" = some r ∧
      r.context = windowOf (appendedHistory [("alice", ["m1"])] "alice"
        "Объяснить термины") ∧
      ("Объяснить термины" ≠ "Очистить контекст" →
        UserContext.slookup r.storage "alice" =
          some (appendedHistory [("alice", ["m1"])] "alice" "Объяснить термины")) ∧
      "Объяснить термины" ∈
        (appendedHistory [("alice", ["m1"])] "alice" "Объяснить термины").drop
          ((appendedHistory [("alice", ["m1"])] "alice" "Объяснить термины").length - 3) :=
  handle_text_appends_raw_message (fun _ _ => none) [("alice", ["m1"])]
    "alice" "Объяснить термины"

/-- C2: for every user whose context exists, `_get_context` returns the
last three history entries — fewer when the history is shorter — joined by
single spaces in original insertion order, and the empty string on an
empty history. -/
theorem get_context_window_spec (s : Storage) (u : Username)
    (h : List String) (hs : UserContext.slookup s u = some h) :
    UserContext.get_context s u =
      some (String.intercalate " " ((h.reverse.take 3).reverse)) ∧
    (h = [] → UserContext.get_context s u = some "") := by
  have key : h.drop (h.length - 3) = (h.reverse.take 3).reverse :=
    List.rtake_eq_reverse_take_reverse h 3
  constructor
  · rw [UserContext.get_context, hs, Option.map_some', key]
  · intro he
    subst he
    rw [UserContext.get_context, hs]
    rfl

/-- Closed instance of `get_context_window_spec`: the spec's worked
example, history `["m1","m2","m3","m4"]` windows to `"m2 m3 m4"`, and an
empty history windows to `""`. -/
theorem get_context_window_spec_app :
    UserContext.get_context [("alice", ["m1", "m2", "m3", "m4"])] "alice" =
      some "m2 m3 m4" ∧
    UserContext.get_context [("bob", [])] "bob" = some "" := by
  constructor
  · have h1 := (get_context_window_spec [("alice", ["m1", "m2", "m3", "m4"])]
      "alice" ["m1", "m2", "m3", "m4"] (by decide)).1
    exact h1.trans (by decide)
  · exact (get_context_window_spec [("bob", [])] "bob" [] (by decide)).2 rfl

/-- C3: whenever the completion call fails, the handler returns exactly
`ERROR_RESPONSE` as the final reply body with no keyboard affordances, no
exception escapes (`handle_text` still returns a result), and the
sender's history already contains the just-sent message, appended before
the call. -/
theorem handle_text_completion_failure
    (complete : String → String → Option String) (s : Storage)
    (u : Username) (msg : String) (hmsg : msg ≠ "Очистить контекст")
    (hfail : complete (windowOf (appendedHistory s u msg)) (select msg) = none) :
    ∃ r, handle_text complete s u msg = some r ∧
      r.replies.getLast? = some ⟨ERROR_RESPONSE, []⟩ ∧
      UserContext.slookup r.storage u = some (appendedHistory s u msg) ∧
      msg ∈ appendedHistory s u msg := by
  have hresp : get_gpt_response complete (windowOf (appendedHistory s u msg))
      (select msg) = ERROR_RESPONSE := by
    simp only [get_gpt_response, hfail]
  rw [handle_text_eq, if_neg hmsg]
  refine ⟨_, rfl, ?_, UserContext.slookup_supdate_self _ _ _,
    List.mem_append_right _ (List.mem_singleton.mpr rfl)⟩
  simp [hresp]

/-- Closed instance of `handle_text_completion_failure`: an
always-failing collaborator yields the sentinel reply without buttons
while the message "привет" is already stored. -/
theorem handle_text_completion_failure_app :
    ∃ r, handle_text (fun _ _ => none) [] "alice" "привет" = some r ∧
      r.replies.getLast? = some ⟨ERROR_RESPONSE, []⟩ ∧
      UserContext.slookup r.storage "alice" =
        some (appendedHistory [] "alice" "привет") ∧
      "привет" ∈ appendedHistory [] "alice" "привет" :=
  handle_text_completion_failure (fun _ _ => none) [] "alice" "привет"
    (by decide) rfl

/-- C4: handling the exact message "Очистить контекст" empties the
sender's history (its window becomes the empty string), sends the fixed
acknowledgement as the only outbound message with no keyboard
affordances, and issues no completion call. -/
theorem handle_text_clear_trigger
    (complete : String → String → Option String) (s : Storage)
    (u : Username) :
    ∃ r, handle_text complete s u "Очистить контекст" = some r ∧
      UserContext.slookup r.storage u = some [] ∧
      UserContext.get_context r.storage u = some "" ∧
      r.calls = [] ∧
      r.replies = [⟨"Контекст сброшен.", []⟩] := by
  rw [handle_text_eq, if_pos rfl]
  refine ⟨_, rfl, UserContext.slookup_supdate_self _ _ _, ?_, rfl, rfl⟩
  rw [UserContext.get_context, UserContext.slookup_supdate_self]
  rfl

/-- C5 counterexample: `_del_context` on a user with no stored context is
not a no-op success — `self.storage[username].clear()` raises `KeyError`
(modelled as `none`) on the empty storage. -/
theorem del_context_unknown_user_raises :
    UserContext.del_context ([] : Storage) "alice" = none := rfl

/-- C5 (amended): for every user whose context exists, `_del_context`
succeeds, empties that user's history, and leaves the entry present. -/
theorem del_context_existing_user_clears (s : Storage) (u : Username)
    (h : List String) (hs : UserContext.slookup s u = some h) :
    UserContext.del_context s u = some (UserContext.supdate s u []) ∧
    UserContext.slookup (UserContext.supdate s u []) u = some [] := by
  rw [UserContext.del_context, hs]
  exact ⟨rfl, UserContext.slookup_supdate_self _ _ _⟩

/-- Closed instance of `del_context_existing_user_clears`. -/
theorem del_context_existing_user_clears_app :
    UserContext.del_context [("alice", ["m1"])] "alice" =
      some (UserContext.supdate [("alice", ["m1"])] "alice" []) ∧
    UserContext.slookup
      (UserContext.supdate [("alice", ["m1"])] "alice" []) "alice" =
      some [] :=
  del_context_existing_user_clears [("alice", ["m1"])] "alice" ["m1"]
    (by decide)

/-- C6 counterexample: for a fresh user with no context, `_get_context`
does not return the empty string — `self.storage[username]` raises
`KeyError` (modelled as `none`). -/
theorem get_context_unknown_user_raises :
    UserContext.get_context ([] : Storage) "alice" = none := rfl

/-- C6 (amended): for every user whose context exists and is empty,
`_get_context` succeeds and returns the empty string; a fresh user only
reaches `_get_context` through `handle_text`, which creates the context
first. -/
theorem get_context_empty_history (s : Storage) (u : Username)
    (hs : UserContext.slookup s u = some []) :
    UserContext.get_context s u = some "" := by
  rw [UserContext.get_context, hs]
  rfl

/-- Closed instance of `get_context_empty_history`. -/
theorem get_context_empty_history_app :
    UserContext.get_context [("carol", [])] "carol" = some "" :=
  get_context_empty_history [("carol", [])] "carol" (by decide)

/-- C7: directive selection is a total pure function of the current
inbound message text alone: the exact literal "Объяснить термины" selects
the explain-terms instruction, every other text the rewrite instruction,
and for every non-clear message the handler issues exactly one completion
call carrying `select msg` as its system prompt. -/
theorem select_total_and_literal :
    select "Объяснить термины" = explain_terms_prompt ∧
    (∀ msg, msg ≠ "Объяснить термины" → select msg = rewrite_prompt) ∧
    (∀ (complete : String → String → Option String) (s : Storage)
       (u : Username) (msg : String), msg ≠ "Очистить контекст" →
      ∃ r, handle_text complete s u msg = some r ∧
        r.calls = [(r.context, select msg)]) := by
  refine ⟨by rw [select, if_pos rfl], fun msg hm => by rw [select, if_neg hm],
    fun complete s u msg hm => ?_⟩
  rw [handle_text_eq, if_neg hm]
  exact ⟨_, rfl, rfl⟩

/-- Closed instance of `select_total_and_literal`: the explain-terms
trigger picks the explain-terms prompt, "привет" picks the rewrite
prompt, and a concrete non-clear handling makes exactly one call with the
selected prompt. -/
theorem select_total_and_literal_app :
    select "Объяснить термины" = explain_terms_prompt ∧
    select "привет" = rewrite_prompt ∧
    ∃ r, handle_text (fun _ _ => none) [] "alice" "Объяснить термины" =
        some r ∧
      r.calls = [(r.context, select "Объяснить термины")] :=
  ⟨select_total_and_literal.1,
   select_total_and_literal.2.1 "привет" (by decide),
   select_total_and_literal.2.2 (fun _ _ => none) [] "alice"
     "Объяснить термины" (by decide)⟩

/-- C8: for every handled message that is not the clear trigger, the two
quick-reply affordances are attached to the final outbound reply if and
only if the reply body differs from the sentinel error text — also when a
successful completion happens to return the sentinel string itself. -/
theorem reply_affordances_iff_not_sentinel
    (complete : String → String → Option String) (s : Storage)
    (u : Username) (msg : String) (hmsg : msg ≠ "Очистить контекст") :
    ∃ r rep, handle_text complete s u msg = some r ∧
      r.replies.getLast? = some rep ∧
      rep.buttons = (if rep.text = ERROR_RESPONSE then ([] : List String)
                     else ["Очистить контекст", "Объяснить термины"]) ∧
      (rep.buttons ≠ [] ↔ rep.text ≠ ERROR_RESPONSE) := by
  rw [handle_text_eq, if_neg hmsg]
  refine ⟨_, _, rfl, rfl, rfl, ?_⟩
  by_cases hr : get_gpt_response complete (windowOf (appendedHistory s u msg))
      (select msg) = ERROR_RESPONSE <;> simp [hr]

/-- Closed instance of `reply_affordances_iff_not_sentinel`, with a
collaborator that succeeds but returns exactly the sentinel string: the
reply still carries no affordances. -/
theorem reply_affordances_iff_not_sentinel_app :
    ∃ r rep,
      handle_text (fun _ _ => some ERROR_RESPONSE) [] "dave" "привет" =
        some r ∧
      r.replies.getLast? = some rep ∧
      rep.buttons = (if rep.text = ERROR_RESPONSE then ([] : List String)
                     else ["Очистить контекст", "Объяснить термины"]) ∧
      (rep.buttons ≠ [] ↔ rep.text ≠ ERROR_RESPONSE) :=
  reply_affordances_iff_not_sentinel (fun _ _ => some ERROR_RESPONSE) []
    "dave" "привет" (by decide)

/-- C10: handling one inbound message from `u` modifies at most `u`'s
entry of the shared map — every other user's stored history and windowed
context are unchanged by the whole flow. -/
theorem handle_text_frame_other_users
    (complete : String → String → Option String) (s : Storage)
    (u : Username) (msg : String) (v : Username) (hv : v ≠ u) :
    ∃ r, handle_text complete s u msg = some r ∧
      UserContext.slookup r.storage v = UserContext.slookup s v ∧
      UserContext.get_context r.storage v = UserContext.get_context s v := by
  rw [handle_text_eq]
  by_cases hm : msg = "Очистить контекст"
  · rw [if_pos hm]
    have h1 : UserContext.slookup
        (UserContext.supdate
          (UserContext.supdate (ensureStore s u) u (appendedHistory s u msg))
          u []) v = UserContext.slookup s v := by
      rw [UserContext.slookup_supdate_ne _ _ _ _ hv,
        UserContext.slookup_supdate_ne _ _ _ _ hv,
        UserContext.slookup_ensure_ne _ _ _ hv]
    exact ⟨_, rfl, h1,
      by rw [UserContext.get_context, UserContext.get_context, h1]⟩
  · rw [if_neg hm]
    have h1 : UserContext.slookup
        (UserContext.supdate (ensureStore s u) u (appendedHistory s u msg))
        v = UserContext.slookup s v := by
      rw [UserContext.slookup_supdate_ne _ _ _ _ hv,
        UserContext.slookup_ensure_ne _ _ _ hv]
    exact ⟨_, rfl, h1,
      by rw [UserContext.get_context, UserContext.get_context, h1]⟩

/-- Closed instance of `handle_text_frame_other_users`: a message from
"alice" leaves "bob"'s stored history and window untouched. -/
theorem handle_text_frame_other_users_app :
    ∃ r, handle_text (fun _ _ => none) [("bob", ["b1"])] "alice" "привет" =
        some r ∧
      UserContext.slookup r.storage "bob" =
        UserContext.slookup [("bob", ["b1"])] "bob" ∧
      UserContext.get_context r.storage "bob" =
        UserContext.get_context [("bob", ["b1"])] "bob" :=
  handle_text_frame_other_users (fun _ _ => none) [("bob", ["b1"])]
    "alice" "привет" "bob" (by decide)

/-- Invariant behind C9: running any event sequence leaves every user's
stored history a suffix of that user's prior history extended by the
texts that user sent — histories only ever hold inbound message texts in
arrival order. -/
theorem run_history_suffix (complete : String → String → Option String) :
    ∀ (events : List (Username × String)) (s s' : Storage),
      run complete s events = some s' →
      ∀ (u : Username) (h' : List String),
        UserContext.slookup s' u = some h' →
        h' <:+ ((UserContext.slookup s u).getD [] ++ msgsOf u events) := by
  intro events
  induction events with
  | nil =>
      intro s s' hrun u h' hu
      simp only [run, Option.some.injEq] at hrun
      subst hrun
      simp [msgsOf, hu]
  | cons e rest ih =>
      obtain ⟨v, m⟩ := e
      intro s s' hrun u h' hu
      simp only [run] at hrun
      cases hr : handle_text complete s v m with
      | none =>
          rw [hr] at hrun
          simp at hrun
      | some r =>
          rw [hr] at hrun
          simp only [Option.bind_eq_bind, Option.some_bind] at hrun
          refine (ih r.storage s' hrun u h' hu).trans ?_
          rw [handle_text_eq] at hr
          by_cases hvu : v = u
          · subst hvu
            have hmsgs : msgsOf v ((v, m) :: rest) = m :: msgsOf v rest := by
              simp [msgsOf, List.filter_cons]
            rw [hmsgs]
            by_cases hm : m = "Очистить контекст"
            · rw [if_pos hm, Option.some.injEq] at hr
              subst hr
              rw [UserContext.slookup_supdate_self]
              simp only [Option.getD_some, List.nil_append]
              calc msgsOf v rest
                  <:+ (appendedHistory s v m ++ msgsOf v rest) :=
                    List.suffix_append _ _
                _ = (UserContext.slookup s v).getD [] ++ (m :: msgsOf v rest) := by
                    rw [appendedHistory, List.append_assoc]
                    rfl
            · rw [if_neg hm, Option.some.injEq] at hr
              subst hr
              rw [UserContext.slookup_supdate_self]
              simp only [Option.getD_some]
              rw [appendedHistory, List.append_assoc]
              rfl
          · have hmsgs : msgsOf u ((v, m) :: rest) = msgsOf u rest := by
              simp [msgsOf, List.filter_cons, hvu]
            rw [hmsgs]
            have hframe : UserContext.slookup r.storage u =
                UserContext.slookup s u := by
              have hvu' : u ≠ v := fun e => hvu e.symm
              by_cases hm : m = "Очистить контекст"
              · rw [if_pos hm, Option.some.injEq] at hr
                subst hr
                rw [UserContext.slookup_supdate_ne _ _ _ _ hvu',
                  UserContext.slookup_supdate_ne _ _ _ _ hvu',
                  UserContext.slookup_ensure_ne _ _ _ hvu']
              · rw [if_neg hm, Option.some.injEq] at hr
                subst hr
                rw [UserContext.slookup_supdate_ne _ _ _ _ hvu',
                  UserContext.slookup_ensure_ne _ _ _ hvu']
            rw [hframe]

/-- C9: starting from the empty storage, after any sequence of handled
inbound messages every user's stored history is a suffix of the texts
that very user sent, in arrival order — in particular no bot output
(model reply, acknowledgement, greeting, wait notice, or sentinel text)
is ever appended to any history. -/
theorem history_only_inbound_messages
    (complete : String → String → Option String)
    (events : List (Username × String)) (s' : Storage) (u : Username)
    (h : List String) (hrun : run complete [] events = some s')
    (hu : UserContext.slookup s' u = some h) :
    h <:+ msgsOf u events := by
  have hmain := run_history_suffix complete events [] s' hrun u h hu
  simpa [UserContext.slookup] using hmain

/-- Closed instance of `history_only_inbound_messages`: after "alice"
sends "hi" from a fresh start, her stored history `["hi"]` is a suffix of
the messages she sent. -/
theorem history_only_inbound_messages_app :
    ["hi"] <:+ msgsOf "alice" [("alice", "hi")] :=
  history_only_inbound_messages (fun _ _ => none) [("alice", "hi")]
    [("alice", ["hi"])] "alice" ["hi"] (by decide) (by decide)
